import Mathlib

/-!
Verification of the `aws configure import` CSV credential importer
(`awscli/customizations/configure/importer.py`).

Python strings are embedded as `List Char`; the Python string methods used
by the source (`str.strip`, `str.lower`, `str.split(',')`, `str.splitlines`)
are defined below over that representation, and the parser
(`CSVCredentialParser`) is a direct transcription of the source.

The config-file merge writer (`ConfigFileWriter.update_config`) lives in
`writer.py`, which is not part of the sources under verification; it is
modelled from the specification (§4.2) further below.
-/

/-- Python strings, embedded as lists of characters. -/
abbrev Str := List Char

/-- The characters `str.strip()` removes (ASCII whitespace, as in Python). -/
def isSpace (c : Char) : Bool :=
  c == ' ' || c == '\t' || c == '\n' || c == '\r' || c == '\x0b' || c == '\x0c'

/-- Python `str.strip()`: remove leading and trailing whitespace. -/
def pyStrip (l : Str) : Str :=
  ((l.dropWhile isSpace).reverse.dropWhile isSpace).reverse

/-- Python `str.lower()` (ASCII case folding). -/
def pyLower (l : Str) : Str := l.map Char.toLower

/-- Python `str.split(sep)` for a one-character separator: always returns at
least one field, empty fields are kept. -/
def pySplit (sep : Char) : Str → List Str
  | [] => [[]]
  | c :: cs =>
    if c = sep then [] :: pySplit sep cs
    else
      match pySplit sep cs with
      | [] => [[c]]
      | f :: rest => (c :: f) :: rest

/-- Python `str.splitlines()`: break on `\n`, `\r\n`, `\r`, `\x0b`, `\x0c`;
a trailing line terminator does not produce a final empty line. -/
def pySplitlines : Str → List Str
  | [] => []
  | '\r' :: '\n' :: cs => [] :: pySplitlines cs
  | '\n' :: cs => [] :: pySplitlines cs
  | '\r' :: cs => [] :: pySplitlines cs
  | '\x0b' :: cs => [] :: pySplitlines cs
  | '\x0c' :: cs => [] :: pySplitlines cs
  | c :: cs =>
    match pySplitlines cs with
    | [] => [[c]]
    | f :: rest => (c :: f) :: rest

/-- Python `list.index` combined with the `in` test: index of the first
occurrence, if any. -/
def indexOfStr (x : Str) : List Str → Option Nat
  | [] => none
  | y :: ys => if y = x then some 0 else (indexOfStr x ys).map (· + 1)

/-! ## The CSV credential parser (`CSVCredentialParser`) -/

/-- A parsed credential: `(username, access key id, secret access key)`. -/
abbrev Credential := Str × Str × Str

/-- The errors `CredentialParserError` is raised with in the source. -/
inductive CredentialParserError where
  | emptyCSV : CredentialParserError
  | headerNotFound : Str → CredentialParserError
  | invalidUsername : Nat → CredentialParserError
  | invalidSecret : Nat → CredentialParserError
deriving DecidableEq, Repr

/-- Outcome of a parse: the credential list, a raised
`CredentialParserError`, or a raised `IndexError` (out-of-range `cols[i]`). -/
inductive ParseOutcome where
  | ok : List Credential → ParseOutcome
  | parserError : CredentialParserError → ParseOutcome
  | indexError : ParseOutcome
deriving DecidableEq, Repr

/-- Source `CSVCredentialParser._USERNAME_HEADER`. -/
def usernameHeader : Str := "User Name".data

/-- Source `CSVCredentialParser._AKID_HEADER`. -/
def akidHeader : Str := "Access Key ID".data

/-- Source `CSVCredentialParser._SAK_HEADER`. -/
def sakHeader : Str := "Secret Access key".data

/-- Source `CSVCredentialParser._EXPECTED_HEADERS`. -/
def expectedHeaders : List Str := [usernameHeader, akidHeader, sakHeader]

/-- Source `CSVCredentialParser._format_header`: `header.lower().strip()`. -/
def formatHeader (h : Str) : Str := pyStrip (pyLower h)

/-- Outcome of `_parse_csv_headers`: the three recorded column indices, or
the first expected header that is absent. -/
inductive HeaderOutcome where
  | ok : Nat → Nat → Nat → HeaderOutcome
  | notFound : Str → HeaderOutcome
deriving DecidableEq, Repr

/-- Source `CSVCredentialParser._parse_csv_headers`: split the header row on commas,
normalise each field, and record the index of each expected header, failing
on the first expected header not present. -/
def parseCSVHeaders (header : Str) : HeaderOutcome :=
  let parsedHeaders := (pySplit ',' header).map formatHeader
  match indexOfStr (formatHeader usernameHeader) parsedHeaders with
  | none => .notFound usernameHeader
  | some u =>
    match indexOfStr (formatHeader akidHeader) parsedHeaders with
    | none => .notFound akidHeader
    | some a =>
      match indexOfStr (formatHeader sakHeader) parsedHeaders with
      | none => .notFound sakHeader
      | some s => .ok u a s

/-- Source `CSVCredentialParser._parse_csv_rows`: the loop body, with the running
entry counter `count` (the source increments it before using it, so the first
row processed reports entry `count + 1`). `cols[i]` out of range raises
`IndexError` before any validity check, exactly as in the source. -/
def parseCSVRows (strict : Bool) (u a s : Nat) : List Str → Nat → ParseOutcome
  | [], _ => .ok []
  | row :: rest, count =>
    let c := count + 1
    let cols := pySplit ',' row
    match cols[u]?, cols[a]?, cols[s]? with
    | some f1, some f2, some f3 =>
      let username := pyStrip f1
      let akid := pyStrip f2
      let sak := pyStrip f3
      if username.isEmpty then
        if strict then .parserError (.invalidUsername c)
        else parseCSVRows strict u a s rest c
      else if akid.isEmpty || sak.isEmpty then
        if strict then .parserError (.invalidSecret c)
        else parseCSVRows strict u a s rest c
      else
        match parseCSVRows strict u a s rest c with
        | .ok creds => .ok ((username, akid, sak) :: creds)
        | other => other
    | _, _, _ => .indexError

/-- Source `CSVCredentialParser._parse_csv`: empty-input check, then header parse on
`lines[0]`, then row parse on `lines[1:]`. -/
def parseCSV (strict : Bool) (csv : Str) : ParseOutcome :=
  if (pyStrip csv).isEmpty then .parserError .emptyCSV
  else
    match pySplitlines csv with
    | [] => .indexError
    | first :: rest =>
      match parseCSVHeaders first with
      | .notFound l => .parserError (.headerNotFound l)
      | .ok u a s => parseCSVRows strict u a s rest 0

/-- The parser object: its only state is the `strict` flag set in
`__init__` / `_run_main`. -/
structure CSVCredentialParser where
  strict : Bool
deriving DecidableEq, Repr

/-- Source `CSVCredentialParser.parse_credentials`, in state-passing form: the
result together with the parser state after the call. -/
def parse_credentials (p : CSVCredentialParser) (contents : Str) :
    ParseOutcome × CSVCredentialParser :=
  (parseCSV p.strict contents, p)

/-! ## Row-level helper views used to state the claims -/

/-- The comma-split columns of a data row. -/
def colsOf (row : Str) : List Str := pySplit ',' row

/-- Whether all three recorded column indices are in range for this row. -/
def rowIndexable (u a s : Nat) (row : Str) : Bool :=
  (colsOf row)[u]?.isSome && (colsOf row)[a]?.isSome && (colsOf row)[s]?.isSome

/-- The trimmed field of a row at a column index (junk when out of range). -/
def trimField (row : Str) (i : Nat) : Str := pyStrip ((colsOf row).getD i [])

/-- A row all of whose three recorded fields exist and are non-empty after
trimming. -/
def goodRow (u a s : Nat) (row : Str) : Bool :=
  rowIndexable u a s row && !(trimField row u).isEmpty &&
    !(trimField row a).isEmpty && !(trimField row s).isEmpty

/-- The credential produced from a good row. -/
def rowCred (u a s : Nat) (row : Str) : Credential :=
  (trimField row u, trimField row a, trimField row s)

/-! ## The config merge writer (`ConfigMergeWriter`)

`CredentialImporter.import_credential` delegates the merge to
`ConfigFileWriter.update_config` (from `writer.py`, not among the sources
under verification); the merge algorithm is therefore modelled from the
specification, §4.2 and §6.  A config file is a list of lines. -/

/-- Modelled from the spec: a `ConfigProfile` is "a named bag of key-value
string pairs representing one section to write ... plus the section name". -/
structure ConfigProfile where
  sectionName : Str
  keys : List (Str × Str)

/-- Modelled from the spec: a section header line is "bracket-delimited":
after trimming it starts with a `[` and ends with a `]`. -/
def isHeaderLine (l : Str) : Bool :=
  (pyStrip l).head? == some '[' && (pyStrip l).getLast? == some ']'

/-- Modelled from the spec: the name carried by a section header line (the
text between the brackets). -/
def headerNameOf (l : Str) : Str := ((pyStrip l).drop 1).dropLast

/-- Whether a line is the header of the section named `name`. -/
def matchesSection (name l : Str) : Bool :=
  isHeaderLine l && decide (headerNameOf l = name)

/-- The text of a line before its first `=` (the whole line if it has none). -/
def beforeEq (l : Str) : Str := l.takeWhile (fun c => !(c == '='))

/-- The text of a line from its first `=` on (empty if it has none). -/
def fromEq (l : Str) : Str := l.dropWhile (fun c => !(c == '='))

/-- Modelled from the spec: the key token of a `key = value` line —
"comparison on the key token only, ignoring surrounding whitespace and the
existing value"; a line without `=` is not a key line. -/
def lineKey (l : Str) : Option Str :=
  if fromEq l = [] then none else some (pyStrip (beforeEq l))

/-- Modelled from the spec: "replace its value in place, preserving the
line's original indentation/comment style" — everything before the first `=`
is kept, the value text after it is replaced. -/
def replaceValue (l v : Str) : Str := beforeEq l ++ '=' :: ' ' :: v

/-- Modelled from the spec: the "canonical two-space-indent, ` = `-separated
style" of an appended `key = value` line. -/
def canonLine (k v : Str) : Str := ' ' :: ' ' :: (k ++ ' ' :: '=' :: ' ' :: v)

/-- Modelled from the spec: a `key = value` line of a freshly written
section. -/
def sectionKeyLine (k v : Str) : Str := k ++ ' ' :: '=' :: ' ' :: v

/-- Modelled from the spec: update one key within a section's span — replace
the value of the first line whose key token matches, or append a canonical
line at the end of the span. -/
def updateKey (k v : Str) : List Str → List Str
  | [] => [canonLine k v]
  | l :: ls =>
    if lineKey l = some (pyStrip k) then replaceValue l v :: ls
    else l :: updateKey k v ls

/-- Modelled from the spec: "for each key in `profile`", update it within
the section's span. -/
def updateSpan : List (Str × Str) → List Str → List Str
  | [], span => span
  | (k, v) :: rest, span => updateSpan rest (updateKey k v span)

/-- Modelled from the spec: scan for the first header line of the named
section, returning the lines up to and including that header and the lines
after it. -/
def splitAtSection (name : Str) : List Str → Option (List Str × List Str)
  | [] => none
  | l :: ls =>
    if matchesSection name l then some ([l], ls)
    else (splitAtSection name ls).map (fun pr => (l :: pr.1, pr.2))

/-- Modelled from the spec: "a blank-line separator (if the file is
non-empty and does not already end with a blank line)". -/
def blankSep (lines : List Str) : List Str :=
  match lines.getLast? with
  | none => []
  | some l => if pyStrip l = [] then [] else [[]]

/-- Modelled from the spec: the lines of a freshly appended section — the
header line, then "one `key = value` line per profile key in the profile's
natural field order". -/
def newSectionLines (p : ConfigProfile) : List Str :=
  ('[' :: (p.sectionName ++ [']'])) :: p.keys.map (fun kv => sectionKeyLine kv.1 kv.2)

/-- Modelled from the spec: `updateSection` (the core of
`ConfigFileWriter.update_config`) — merge a profile into the file's lines:
update keys within the existing section's span, or append a new section at
the end of the file. -/
def updateSection (p : ConfigProfile) (lines : List Str) : List Str :=
  match splitAtSection p.sectionName lines with
  | some (pre, post) =>
    pre ++ updateSpan p.keys (post.takeWhile (fun l => !isHeaderLine l)) ++
      post.dropWhile (fun l => !isHeaderLine l)
  | none => lines ++ blankSep lines ++ newSectionLines p

/-- Source `CredentialImporter.import_credential`: the profile written for a parsed
credential (`__section__` holding the profile name). -/
def importProfile (credential : Credential) : ConfigProfile :=
  ⟨credential.1, [("aws_access_key_id".data, credential.2.1),
                  ("aws_secret_access_key".data, credential.2.2)]⟩

/-- Source `CredentialImporter.import_credential`: merge the profile built from a
credential into the credentials file. -/
def import_credential (credential : Credential) (file : List Str) : List Str :=
  updateSection (importProfile credential) file

/-- The spec's worked example CSV. -/
def exampleCSV : Str :=
  "User Name,Access Key ID,Secret Access key\nalice,AKIA1,SECRET1\n,AKIA2,SECRET2\n".data

/-- The characters `str.splitlines()` breaks on in this embedding. -/
def isLineBreak (c : Char) : Bool :=
  c == '\n' || c == '\r' || c == '\x0b' || c == '\x0c'

/-- Modelled from the spec: how one line of a section span may relate to its
updated counterpart — either untouched, or a `key = value` line of one of
the profile's keys whose text before the `=` (indentation and key token) is
preserved and whose value text is replaced. -/
def lineUpd (kvs : List (Str × Str)) (o n : Str) : Prop :=
  n = o ∨ ∃ kv ∈ kvs, lineKey o = some (pyStrip kv.1) ∧
    n = replaceValue o kv.2 ∧ beforeEq n = beforeEq o

/-! ## Parser lemmas -/

theorem goodRow_indexable {u a s : Nat} {row : Str} (h : goodRow u a s row = true) :
    rowIndexable u a s row = true := by
  simp [goodRow] at h
  exact h.1.1.1

theorem rowIndexable_fields {u a s : Nat} {row : Str}
    (h : rowIndexable u a s row = true) :
    (colsOf row)[u]? = some ((colsOf row).getD u []) ∧
      (colsOf row)[a]? = some ((colsOf row).getD a []) ∧
      (colsOf row)[s]? = some ((colsOf row).getD s []) := by
  simp only [rowIndexable, Bool.and_eq_true, Option.isSome_iff_exists] at h
  obtain ⟨⟨⟨f1, h1⟩, f2, h2⟩, f3, h3⟩ := h
  refine ⟨?_, ?_, ?_⟩ <;> simp [List.getD_eq_getElem?_getD, h1, h2, h3]

theorem parseCSVRows_cons_good {u a s : Nat} {row : Str} (strict : Bool)
    (rest : List Str) (n : Nat) (h : goodRow u a s row = true) :
    parseCSVRows strict u a s (row :: rest) n =
      match parseCSVRows strict u a s rest (n + 1) with
      | .ok creds => .ok (rowCred u a s row :: creds)
      | other => other := by
  obtain ⟨h1, h2, h3⟩ := rowIndexable_fields (goodRow_indexable h)
  simp only [goodRow, Bool.and_eq_true, Bool.not_eq_eq_eq_not, Bool.not_true] at h
  obtain ⟨⟨⟨-, e1⟩, e2⟩, e3⟩ := h
  simp only [colsOf] at h1 h2 h3
  simp only [trimField, colsOf, List.getD_eq_getElem?_getD] at e1 e2 e3
  have e1' : pyStrip ((pySplit ',' row)[u]?.getD []) ≠ [] := by simpa using e1
  have e2' : pyStrip ((pySplit ',' row)[a]?.getD []) ≠ [] := by simpa using e2
  have e3' : pyStrip ((pySplit ',' row)[s]?.getD []) ≠ [] := by simpa using e3
  simp only [parseCSVRows, h1, h2, h3]
  simp [e1', e2', e3', rowCred, trimField, colsOf]

theorem parseCSVRows_append_good {u a s : Nat} {pre : List Str} (strict : Bool)
    (rest : List Str) (n : Nat) (h : ∀ r ∈ pre, goodRow u a s r = true) :
    parseCSVRows strict u a s (pre ++ rest) n =
      match parseCSVRows strict u a s rest (n + pre.length) with
      | .ok creds => .ok (pre.map (rowCred u a s) ++ creds)
      | other => other := by
  induction pre generalizing n with
  | nil =>
    simp only [List.nil_append, List.length_nil, Nat.add_zero, List.map_nil]
    cases hx : parseCSVRows strict u a s rest n <;> simp [hx]
  | cons row pre ih =>
    have hrow := h row (by simp)
    have hpre : ∀ r ∈ pre, goodRow u a s r = true := fun r hr => h r (by simp [hr])
    rw [List.cons_append, parseCSVRows_cons_good strict _ n hrow, ih (n + 1) hpre]
    have : n + 1 + pre.length = n + (pre.length + 1) := by omega
    rw [this]
    cases hx : parseCSVRows strict u a s rest (n + (pre.length + 1)) <;> simp [hx]

theorem parseCSVRows_all_good {u a s : Nat} {rows : List Str} (strict : Bool)
    (n : Nat) (h : ∀ r ∈ rows, goodRow u a s r = true) :
    parseCSVRows strict u a s rows n = .ok (rows.map (rowCred u a s)) := by
  have := @parseCSVRows_append_good u a s rows strict [] n h
  simpa [parseCSVRows] using this

theorem parseCSVRows_lenient {u a s : Nat} {rows : List Str} (n : Nat)
    (h : ∀ r ∈ rows, rowIndexable u a s r = true) :
    parseCSVRows false u a s rows n =
      .ok ((rows.filter (goodRow u a s)).map (rowCred u a s)) := by
  induction rows generalizing n with
  | nil => simp [parseCSVRows]
  | cons row rows ih =>
    have hrow := h row (by simp)
    have hrest : ∀ r ∈ rows, rowIndexable u a s r = true :=
      fun r hr => h r (by simp [hr])
    obtain ⟨h1, h2, h3⟩ := rowIndexable_fields hrow
    by_cases hg : goodRow u a s row = true
    · rw [parseCSVRows_cons_good false rows n hg, ih (n + 1) hrest]
      simp [hg]
    · have hg' : goodRow u a s row = false := by simpa using hg
      have hfilter : List.filter (goodRow u a s) (row :: rows) =
          List.filter (goodRow u a s) rows := by
        rw [List.filter_cons, hg']
        simp
      simp only [colsOf] at h1 h2 h3
      simp only [parseCSVRows, h1, h2, h3, hfilter]
      by_cases e1 : pyStrip ((pySplit ',' row)[u]?.getD []) = []
      · simp [e1, ih (n + 1) hrest, hfilter]
      · have e23 : pyStrip ((pySplit ',' row)[a]?.getD []) = [] ∨
            pyStrip ((pySplit ',' row)[s]?.getD []) = [] := by
          by_contra hc
          push_neg at hc
          have hgood : goodRow u a s row = true := by
            simp [goodRow, trimField, colsOf, List.getD_eq_getElem?_getD, hrow,
              e1, hc.1, hc.2]
          rw [hgood] at hg'
          exact Bool.noConfusion hg'
        rcases e23 with e2 | e2 <;> simp [e1, e2, ih (n + 1) hrest, hfilter]

theorem parseCSVRows_ne_emptyCSV (strict : Bool) (u a s : Nat) (rows : List Str)
    (n : Nat) : parseCSVRows strict u a s rows n ≠ .parserError .emptyCSV := by
  induction rows generalizing n with
  | nil => simp [parseCSVRows]
  | cons row rest ih =>
    simp only [parseCSVRows]
    cases hu : (pySplit ',' row)[u]? <;> try simp
    cases ha : (pySplit ',' row)[a]? <;> try simp
    cases hs : (pySplit ',' row)[s]? <;> try simp
    split
    · split <;> simp [ih]
    · split
      · split <;> simp [ih]
      · intro hcontra
        split at hcontra <;> simp_all [ih (n + 1)]

theorem parseCSVRows_cons_short (strict : Bool) {u a s : Nat} {row : Str}
    (rest : List Str) (n : Nat) (h : rowIndexable u a s row = false) :
    parseCSVRows strict u a s (row :: rest) n = .indexError := by
  cases hu : (pySplit ',' row)[u]? with
  | none => simp [parseCSVRows, hu]
  | some f1 =>
    cases ha : (pySplit ',' row)[a]? with
    | none => simp [parseCSVRows, hu, ha]
    | some f2 =>
      cases hs : (pySplit ',' row)[s]? with
      | none => simp [parseCSVRows, hu, ha, hs]
      | some f3 => simp [rowIndexable, colsOf, hu, ha, hs] at h

theorem indexOfStr_eq_none_iff (x : Str) (l : List Str) :
    indexOfStr x l = none ↔ x ∉ l := by
  induction l with
  | nil => simp [indexOfStr]
  | cons y ys ih =>
    by_cases hy : y = x
    · simp [indexOfStr, hy]
    · simp [indexOfStr, hy, ih, Ne.symm hy]

theorem parseCSV_ok_headers {csv first : Str} {rows : List Str} {u a s : Nat}
    (strict : Bool) (h0 : pyStrip csv ≠ []) (h1 : pySplitlines csv = first :: rows)
    (h2 : parseCSVHeaders first = .ok u a s) :
    parseCSV strict csv = parseCSVRows strict u a s rows 0 := by
  simp only [parseCSV, h1]
  rw [if_neg (by simpa using h0), h2]

theorem parseCSV_bad_headers {csv first : Str} {rows : List Str} {l : Str}
    (strict : Bool) (h0 : pyStrip csv ≠ []) (h1 : pySplitlines csv = first :: rows)
    (h2 : parseCSVHeaders first = .notFound l) :
    parseCSV strict csv = .parserError (.headerNotFound l) := by
  simp only [parseCSV, h1]
  rw [if_neg (by simpa using h0), h2]

/-! ## Claim theorems for the parser -/

/-- C1: for every CSV input whose first line yields all three required
header indices and whose every data row has non-empty trimmed username,
access-key-id and secret-access-key fields at the recorded indices, parsing
returns exactly the ordered sequence of trimmed field triples. -/
theorem c1_parse_all_good_rows (strict : Bool) (csv first : Str)
    (rows : List Str) (u a s : Nat)
    (h0 : pyStrip csv ≠ [])
    (h1 : pySplitlines csv = first :: rows)
    (h2 : parseCSVHeaders first = .ok u a s)
    (h3 : ∀ r ∈ rows, goodRow u a s r = true) :
    parseCSV strict csv = .ok (rows.map (rowCred u a s)) := by
  rw [parseCSV_ok_headers strict h0 h1 h2]
  exact parseCSVRows_all_good strict 0 h3

/-- Witness for C1 at a concrete two-row CSV. -/
theorem c1_parse_all_good_rows_witness :
    parseCSV true "User Name,Access Key ID,Secret Access key\nalice, AKIA1 ,SECRET1\nbob,AKIA2,SECRET2".data
      = .ok [("alice".data, "AKIA1".data, "SECRET1".data),
             ("bob".data, "AKIA2".data, "SECRET2".data)] := by
  have h := c1_parse_all_good_rows true
    "User Name,Access Key ID,Secret Access key\nalice, AKIA1 ,SECRET1\nbob,AKIA2,SECRET2".data
    "User Name,Access Key ID,Secret Access key".data
    ["alice, AKIA1 ,SECRET1".data, "bob,AKIA2,SECRET2".data] 0 1 2
    (by decide) (by decide) (by decide) (by decide)
  simpa using h

/-- C2: in strict mode, with all rows before the offending one valid, a row
with an empty trimmed username fails with `InvalidUsername` at the 1-based
row number, and a row with a non-empty username but an empty trimmed
access-key-id or secret-access-key fails with `InvalidSecret` at that row
number; the username check takes precedence and the result is the error
alone (no partial credential list). -/
theorem c2_strict_first_invalid_row (csv first row : Str)
    (rows pre rest : List Str) (u a s : Nat)
    (h0 : pyStrip csv ≠ [])
    (h1 : pySplitlines csv = first :: rows)
    (h2 : parseCSVHeaders first = .ok u a s)
    (h3 : rows = pre ++ row :: rest)
    (h4 : ∀ r ∈ pre, goodRow u a s r = true)
    (h5 : rowIndexable u a s row = true) :
    (trimField row u = [] →
      parseCSV true csv = .parserError (.invalidUsername (pre.length + 1))) ∧
    (trimField row u ≠ [] → (trimField row a = [] ∨ trimField row s = []) →
      parseCSV true csv = .parserError (.invalidSecret (pre.length + 1))) := by
  rw [parseCSV_ok_headers true h0 h1 h2, h3,
    parseCSVRows_append_good true (row :: rest) 0 h4]
  obtain ⟨g1, g2, g3⟩ := rowIndexable_fields h5
  simp only [colsOf] at g1 g2 g3
  simp only [parseCSVRows, g1, g2, g3, Nat.zero_add]
  constructor
  · intro hu
    simp only [trimField, colsOf, List.getD_eq_getElem?_getD] at hu
    simp [hu]
  · intro hu has
    simp only [trimField, colsOf, List.getD_eq_getElem?_getD] at hu has
    rcases has with h' | h' <;> simp [hu, h']

/-- Witness for C2: empty username in row 2, empty secret in row 1. -/
theorem c2_strict_first_invalid_row_witness :
    parseCSV true "User Name,Access Key ID,Secret Access key\nalice,AKIA1,SECRET1\n ,AKIA2,SECRET2".data
      = .parserError (.invalidUsername 2) ∧
    parseCSV true "User Name,Access Key ID,Secret Access key\nbob,AKIA1, ".data
      = .parserError (.invalidSecret 1) := by
  constructor
  · exact (c2_strict_first_invalid_row
      "User Name,Access Key ID,Secret Access key\nalice,AKIA1,SECRET1\n ,AKIA2,SECRET2".data
      "User Name,Access Key ID,Secret Access key".data " ,AKIA2,SECRET2".data
      ["alice,AKIA1,SECRET1".data, " ,AKIA2,SECRET2".data]
      ["alice,AKIA1,SECRET1".data] [] 0 1 2
      (by decide) (by decide) (by decide) (by decide) (by decide) (by decide)).1
      (by decide)
  · exact (c2_strict_first_invalid_row
      "User Name,Access Key ID,Secret Access key\nbob,AKIA1, ".data
      "User Name,Access Key ID,Secret Access key".data "bob,AKIA1, ".data
      ["bob,AKIA1, ".data] [] [] 0 1 2
      (by decide) (by decide) (by decide) (by decide) (by decide) (by decide)).2
      (by decide) (Or.inr (by decide))

theorem indexOfStr_eq_some_mem {x : Str} {l : List Str} {n : Nat}
    (h : indexOfStr x l = some n) : x ∈ l := by
  by_contra hx
  rw [(indexOfStr_eq_none_iff x l).mpr hx] at h
  exact Option.noConfusion h

theorem parseCSVHeaders_ok_iff (header : Str) :
    (∃ u a s, parseCSVHeaders header = .ok u a s) ↔
      (formatHeader usernameHeader ∈ (pySplit ',' header).map formatHeader ∧
       formatHeader akidHeader ∈ (pySplit ',' header).map formatHeader ∧
       formatHeader sakHeader ∈ (pySplit ',' header).map formatHeader) := by
  rcases hu : indexOfStr (formatHeader usernameHeader)
      ((pySplit ',' header).map formatHeader) with - | u
  · simp only [parseCSVHeaders, hu]
    constructor
    · rintro ⟨u, a, s, h⟩
      exact HeaderOutcome.noConfusion h
    · rintro ⟨m1, -, -⟩
      exact absurd m1 ((indexOfStr_eq_none_iff _ _).mp hu)
  · rcases ha : indexOfStr (formatHeader akidHeader)
        ((pySplit ',' header).map formatHeader) with - | a
    · simp only [parseCSVHeaders, hu, ha]
      constructor
      · rintro ⟨u, a, s, h⟩
        exact HeaderOutcome.noConfusion h
      · rintro ⟨-, m2, -⟩
        exact absurd m2 ((indexOfStr_eq_none_iff _ _).mp ha)
    · rcases hs : indexOfStr (formatHeader sakHeader)
          ((pySplit ',' header).map formatHeader) with - | s
      · simp only [parseCSVHeaders, hu, ha, hs]
        constructor
        · rintro ⟨u, a, s, h⟩
          exact HeaderOutcome.noConfusion h
        · rintro ⟨-, -, m3⟩
          exact absurd m3 ((indexOfStr_eq_none_iff _ _).mp hs)
      · simp only [parseCSVHeaders, hu, ha, hs]
        exact ⟨fun _ => ⟨indexOfStr_eq_some_mem hu, indexOfStr_eq_some_mem ha,
            indexOfStr_eq_some_mem hs⟩,
          fun _ => ⟨u, a, s, rfl⟩⟩

theorem parseCSVHeaders_notFound {header l : Str}
    (h : parseCSVHeaders header = .notFound l) :
    l ∈ expectedHeaders ∧
      formatHeader l ∉ (pySplit ',' header).map formatHeader := by
  rcases hu : indexOfStr (formatHeader usernameHeader)
      ((pySplit ',' header).map formatHeader) with - | u
  · simp only [parseCSVHeaders, hu] at h
    obtain rfl : usernameHeader = l := by
      cases h
      rfl
    exact ⟨by simp [expectedHeaders], (indexOfStr_eq_none_iff _ _).mp hu⟩
  · rcases ha : indexOfStr (formatHeader akidHeader)
        ((pySplit ',' header).map formatHeader) with - | a
    · simp only [parseCSVHeaders, hu, ha] at h
      obtain rfl : akidHeader = l := by
        cases h
        rfl
      exact ⟨by simp [expectedHeaders], (indexOfStr_eq_none_iff _ _).mp ha⟩
    · rcases hs : indexOfStr (formatHeader sakHeader)
          ((pySplit ',' header).map formatHeader) with - | s
      · simp only [parseCSVHeaders, hu, ha, hs] at h
        obtain rfl : sakHeader = l := by
          cases h
          rfl
        exact ⟨by simp [expectedHeaders], (indexOfStr_eq_none_iff _ _).mp hs⟩
      · simp only [parseCSVHeaders, hu, ha, hs] at h
        exact HeaderOutcome.noConfusion h

/-- C4: header recognition — the header row is comma-split and each required
label is matched lower-cased and trimmed; parsing the header succeeds
exactly when all three required labels are present (in any order, extra
columns ignored), and a failure is a `HeaderNotFound` naming a required
label that is absent, which preempts all data-row processing. -/
theorem c4_header_recognition (header : Str) :
    ((∃ u a s, parseCSVHeaders header = .ok u a s) ↔
      (formatHeader usernameHeader ∈ (pySplit ',' header).map formatHeader ∧
       formatHeader akidHeader ∈ (pySplit ',' header).map formatHeader ∧
       formatHeader sakHeader ∈ (pySplit ',' header).map formatHeader)) ∧
    (∀ l, parseCSVHeaders header = .notFound l →
      l ∈ expectedHeaders ∧
        formatHeader l ∉ (pySplit ',' header).map formatHeader) ∧
    (∀ strict csv rows l, pyStrip csv ≠ [] → pySplitlines csv = header :: rows →
      parseCSVHeaders header = .notFound l →
      parseCSV strict csv = .parserError (.headerNotFound l)) :=
  ⟨parseCSVHeaders_ok_iff header,
   fun _ h => parseCSVHeaders_notFound h,
   fun strict _ _ _ h0 h1 h2 => parseCSV_bad_headers strict h0 h1 h2⟩

/-- Witness for C4: a reordered, re-cased, whitespace-padded header with an
extra column parses, and a header missing the secret-access-key label fails
naming it, regardless of the data row. -/
theorem c4_header_recognition_witness :
    (∃ u a s, parseCSVHeaders " ACCESS KEY ID , Password, secret access KEY,user name".data
      = .ok u a s) ∧
    parseCSV true "User Name,Access Key ID\nalice,AKIA1".data
      = .parserError (.headerNotFound sakHeader) := by
  constructor
  · exact (c4_header_recognition
      " ACCESS KEY ID , Password, secret access KEY,user name".data).1.mpr
      ⟨by decide, by decide, by decide⟩
  · exact (c4_header_recognition "User Name,Access Key ID".data).2.2 true
      "User Name,Access Key ID\nalice,AKIA1".data ["alice,AKIA1".data] sakHeader
      (by decide) (by decide) (by decide)


/-- C3: in lenient mode every indexable data row with an empty trimmed
required field is silently dropped, the remaining rows produce credentials
in order (possibly none); and on the spec's example CSV strict mode fails
with `InvalidUsername` for row 2 while lenient mode returns exactly the
credential of row 1. -/
theorem c3_lenient_skips_invalid (csv first : Str) (rows : List Str)
    (u a s : Nat)
    (h0 : pyStrip csv ≠ [])
    (h1 : pySplitlines csv = first :: rows)
    (h2 : parseCSVHeaders first = .ok u a s)
    (h3 : ∀ r ∈ rows, rowIndexable u a s r = true) :
    parseCSV false csv = .ok ((rows.filter (goodRow u a s)).map (rowCred u a s)) ∧
    parseCSV true exampleCSV = .parserError (.invalidUsername 2) ∧
    parseCSV false exampleCSV = .ok [("alice".data, "AKIA1".data, "SECRET1".data)] := by
  refine ⟨?_, by decide, by decide⟩
  rw [parseCSV_ok_headers false h0 h1 h2]
  exact parseCSVRows_lenient 0 h3

/-- Witness for C3 at the spec's example CSV. -/
theorem c3_lenient_skips_invalid_witness :
    parseCSV false exampleCSV = .ok [("alice".data, "AKIA1".data, "SECRET1".data)] := by
  have h := c3_lenient_skips_invalid exampleCSV
    "User Name,Access Key ID,Secret Access key".data
    ["alice,AKIA1,SECRET1".data, ",AKIA2,SECRET2".data] 0 1 2
    (by decide) (by decide) (by decide) (by decide)
  simpa using h.1

/-- C7: parsing fails with the empty-input error exactly when the CSV text
is empty or whitespace-only. -/
theorem c7_empty_input_iff (strict : Bool) (csv : Str) :
    parseCSV strict csv = .parserError .emptyCSV ↔ pyStrip csv = [] := by
  constructor
  · intro h
    by_contra hne
    rcases hl : pySplitlines csv with - | ⟨first, rest⟩
    · rw [parseCSV, if_neg (by simpa using hne), hl] at h
      exact ParseOutcome.noConfusion h
    · rcases hh : parseCSVHeaders first with ⟨u, a, s⟩ | l
      · rw [parseCSV_ok_headers strict hne hl hh] at h
        exact parseCSVRows_ne_emptyCSV strict u a s rest 0 h
      · rw [parseCSV_bad_headers strict hne hl hh] at h
        simp at h
  · intro h
    simp [parseCSV, h]

/-- C9: `parse_credentials` is a pure function of the CSV text and the
`strict` flag — the parser state is returned unchanged, and two parsers
agreeing on `strict` produce identical results on the same text. -/
theorem c9_pure_function (p q : CSVCredentialParser) (contents : Str)
    (h : p.strict = q.strict) :
    (parse_credentials p contents).2 = p ∧
    (parse_credentials p contents).1 = (parse_credentials q contents).1 := by
  exact ⟨rfl, by simp [parse_credentials, h]⟩

/-- Witness for C9 at a concrete parser pair and text. -/
theorem c9_pure_function_witness :
    (parse_credentials ⟨true⟩ "User Name".data).2 = (⟨true⟩ : CSVCredentialParser) ∧
    (parse_credentials ⟨true⟩ "User Name".data).1 =
      (parse_credentials ⟨true⟩ "User Name".data).1 :=
  c9_pure_function ⟨true⟩ ⟨true⟩ "User Name".data rfl

/-- C10: a data row whose comma-split column list is too short for the
largest recorded header index makes the parse raise the out-of-range
indexing error, in strict and lenient mode alike — it is not reported as a
`CredentialParserError` and lenient mode does not skip the row. -/
theorem c10_short_row_index_error (strict : Bool) (csv first row : Str)
    (rows pre rest : List Str) (u a s : Nat)
    (h0 : pyStrip csv ≠ [])
    (h1 : pySplitlines csv = first :: rows)
    (h2 : parseCSVHeaders first = .ok u a s)
    (h3 : rows = pre ++ row :: rest)
    (h4 : ∀ r ∈ pre, goodRow u a s r = true)
    (h5 : (colsOf row).length ≤ max u (max a s)) :
    parseCSV strict csv = .indexError := by
  have hshort : rowIndexable u a s row = false := by
    rcases le_max_iff.mp h5 with h' | h'
    · simp [rowIndexable, List.getElem?_eq_none h']
    · rcases le_max_iff.mp h' with h'' | h''
      · simp [rowIndexable, List.getElem?_eq_none h'']
      · simp [rowIndexable, List.getElem?_eq_none h'']
  rw [parseCSV_ok_headers strict h0 h1 h2, h3,
    parseCSVRows_append_good strict (row :: rest) 0 h4,
    parseCSVRows_cons_short strict rest (0 + pre.length) hshort]

/-- Witness for C10: a one-column data row under a three-column header. -/
theorem c10_short_row_index_error_witness :
    parseCSV false "User Name,Access Key ID,Secret Access key\nonlyname".data
      = .indexError :=
  c10_short_row_index_error false
    "User Name,Access Key ID,Secret Access key\nonlyname".data
    "User Name,Access Key ID,Secret Access key".data "onlyname".data
    ["onlyname".data] [] [] 0 1 2
    (by decide) (by decide) (by decide) (by decide) (by decide) (by decide)

/-! ## Trailing-newline behaviour (C8) -/


theorem pySplitlines_crlf (X : Str) :
    pySplitlines ('\r' :: '\n' :: X) = [] :: pySplitlines X := by
  simp [pySplitlines]

theorem pySplitlines_lf (X : Str) :
    pySplitlines ('\n' :: X) = [] :: pySplitlines X := by
  simp [pySplitlines]

theorem pySplitlines_cr (X : Str) (h : X.head? ≠ some '\n') :
    pySplitlines ('\r' :: X) = [] :: pySplitlines X := by
  cases X with
  | nil => simp [pySplitlines]
  | cons d X' =>
    have hd : d ≠ '\n' := by
      intro hcontra
      exact h (by simp [hcontra])
    simp [pySplitlines, hd]

theorem pySplitlines_vt (X : Str) :
    pySplitlines ('\x0b' :: X) = [] :: pySplitlines X := by
  simp [pySplitlines]

theorem pySplitlines_ff (X : Str) :
    pySplitlines ('\x0c' :: X) = [] :: pySplitlines X := by
  simp [pySplitlines]

theorem pySplitlines_other (c : Char) (X : Str) (h : isLineBreak c = false) :
    pySplitlines (c :: X) =
      match pySplitlines X with
      | [] => [[c]]
      | f :: rest => (c :: f) :: rest := by
  simp only [isLineBreak, Bool.or_eq_false_iff, beq_eq_false_iff_ne, ne_eq] at h
  obtain ⟨⟨⟨hn, hr⟩, hv⟩, hf⟩ := h
  simp [pySplitlines, hn, hr, hv, hf]

theorem pySplitlines_cons_ne_nil (x : Char) (xs : Str) :
    pySplitlines (x :: xs) ≠ [] := by
  by_cases hb : isLineBreak x = false
  · rw [pySplitlines_other x xs hb]
    cases pySplitlines xs <;> simp
  · simp only [isLineBreak, Bool.not_eq_false, Bool.or_eq_true, beq_iff_eq] at hb
    rcases hb with ((rfl | rfl) | rfl) | rfl
    · rw [pySplitlines_lf]
      simp
    · cases xs with
      | nil => simp [pySplitlines]
      | cons d X' =>
        by_cases hd : d = '\n'
        · subst hd
          rw [pySplitlines_crlf]
          simp
        · rw [pySplitlines_cr _ (by simp [hd])]
          simp
    · rw [pySplitlines_vt]
      simp
    · rw [pySplitlines_ff]
      simp

theorem getLast?_cons_ne_nil {a : Char} {cs : Str} (h : cs ≠ []) :
    (a :: cs).getLast? = cs.getLast? := by
  cases cs with
  | nil => exact absurd rfl h
  | cons b l => exact List.getLast?_cons_cons

theorem pySplitlines_append_lf (csv : Str) (hne : csv ≠ [])
    (h : ∀ c, csv.getLast? = some c → isLineBreak c = false) :
    pySplitlines (csv ++ ['\n']) = pySplitlines csv := by
  induction csv using pySplitlines.induct with
  | case1 => exact absurd rfl hne
  | case2 cs ih =>
    rcases eq_or_ne cs [] with rfl | hcs
    · exact absurd (h '\n' rfl) (by simp [isLineBreak])
    · have hlast : ∀ c, cs.getLast? = some c → isLineBreak c = false := by
        intro c hc
        refine h c ?_
        rw [getLast?_cons_ne_nil (by simp), getLast?_cons_ne_nil hcs]
        exact hc
      simp only [List.cons_append, pySplitlines_crlf]
      rw [ih hcs hlast]
  | case3 cs ih =>
    rcases eq_or_ne cs [] with rfl | hcs
    · exact absurd (h '\n' rfl) (by simp [isLineBreak])
    · have hlast : ∀ c, cs.getLast? = some c → isLineBreak c = false := by
        intro c hc
        refine h c ?_
        rw [getLast?_cons_ne_nil hcs]
        exact hc
      simp only [List.cons_append, pySplitlines_lf]
      rw [ih hcs hlast]
  | case4 cs hcs ih =>
    rcases eq_or_ne cs [] with rfl | hcs'
    · exact absurd (h '\r' rfl) (by simp [isLineBreak])
    · have hlast : ∀ c, cs.getLast? = some c → isLineBreak c = false := by
        intro c hc
        refine h c ?_
        rw [getLast?_cons_ne_nil hcs']
        exact hc
      obtain ⟨d, cs', rfl⟩ : ∃ d cs', cs = d :: cs' := by
        cases cs with
        | nil => exact absurd rfl hcs'
        | cons d cs' => exact ⟨d, cs', rfl⟩
      have hd : d ≠ '\n' := fun hcontra => hcs cs' (by rw [hcontra])
      simp only [List.cons_append]
      simp only [List.cons_append] at ih
      rw [pySplitlines_cr _ (by simp [hd]), pySplitlines_cr _ (by simp [hd]),
        ih hcs' hlast]
  | case5 cs ih =>
    rcases eq_or_ne cs [] with rfl | hcs
    · exact absurd (h '\x0b' rfl) (by simp [isLineBreak])
    · have hlast : ∀ c, cs.getLast? = some c → isLineBreak c = false := by
        intro c hc
        refine h c ?_
        rw [getLast?_cons_ne_nil hcs]
        exact hc
      simp only [List.cons_append, pySplitlines_vt]
      rw [ih hcs hlast]
  | case6 cs ih =>
    rcases eq_or_ne cs [] with rfl | hcs
    · exact absurd (h '\x0c' rfl) (by simp [isLineBreak])
    · have hlast : ∀ c, cs.getLast? = some c → isLineBreak c = false := by
        intro c hc
        refine h c ?_
        rw [getLast?_cons_ne_nil hcs]
        exact hc
      simp only [List.cons_append, pySplitlines_ff]
      rw [ih hcs hlast]
  | case7 c cs h1 h2 h3 h4 h5 hnil ih =>
    have hb : isLineBreak c = false := by
      simp only [isLineBreak, Bool.or_eq_false_iff, beq_eq_false_iff_ne, ne_eq]
      exact ⟨⟨⟨h2, h3⟩, h4⟩, h5⟩
    have hcs : cs = [] := by
      cases cs with
      | nil => rfl
      | cons x xs => exact absurd hnil (pySplitlines_cons_ne_nil x xs)
    subst hcs
    simp [pySplitlines_other c _ hb, pySplitlines_lf, pySplitlines]
  | case8 c cs h1 h2 h3 h4 h5 f rest hcons ih =>
    have hb : isLineBreak c = false := by
      simp only [isLineBreak, Bool.or_eq_false_iff, beq_eq_false_iff_ne, ne_eq]
      exact ⟨⟨⟨h2, h3⟩, h4⟩, h5⟩
    have hcs : cs ≠ [] := by
      intro hcontra
      rw [hcontra] at hcons
      simp [pySplitlines] at hcons
    have hlast : ∀ c, cs.getLast? = some c → isLineBreak c = false := by
      intro c hc
      refine h c ?_
      rw [getLast?_cons_ne_nil hcs]
      exact hc
    simp only [List.cons_append]
    rw [pySplitlines_other c _ hb, pySplitlines_other c _ hb, ih hcs hlast]

theorem pyStrip_append_space (l : Str) {c : Char} (hc : isSpace c = true) :
    pyStrip (l ++ [c]) = pyStrip l := by
  unfold pyStrip
  rw [List.dropWhile_append]
  cases h' : (l.dropWhile isSpace).isEmpty with
  | true =>
    have : l.dropWhile isSpace = [] := by simpa using h'
    simp [this, List.dropWhile, hc]
  | false =>
    simp only [h', Bool.false_eq_true, if_false, List.reverse_append,
      List.reverse_cons, List.reverse_nil, List.nil_append, List.singleton_append,
      List.dropWhile_cons_of_pos hc]

/-- C8 counterexample: appending a single trailing newline to a CSV that
already ends with one does change the parse result — the spurious empty
last row raises the indexing error. -/
theorem c8_trailing_newline_counterexample :
    parseCSV true "User Name,Access Key ID,Secret Access key\nalice,AKIA1,SECRET1\n".data
      = .ok [("alice".data, "AKIA1".data, "SECRET1".data)] ∧
    parseCSV true ("User Name,Access Key ID,Secret Access key\nalice,AKIA1,SECRET1\n".data
      ++ ['\n']) = .indexError ∧
    parseCSV true ("User Name,Access Key ID,Secret Access key\nalice,AKIA1,SECRET1\n".data
        ++ ['\n'])
      ≠ parseCSV true "User Name,Access Key ID,Secret Access key\nalice,AKIA1,SECRET1\n".data := by
  refine ⟨by decide, by decide, by decide⟩

/-- C8 (amended): appending a single trailing newline to a CSV text that
does not already end with a line-break character leaves the parse result
unchanged. -/
theorem c8_trailing_newline_amended (strict : Bool) (csv : Str)
    (h : ∀ c, csv.getLast? = some c → isLineBreak c = false) :
    parseCSV strict (csv ++ ['\n']) = parseCSV strict csv := by
  rcases eq_or_ne csv [] with rfl | hne
  · have h1 : pyStrip ['\n'] = [] := by decide
    have h2 : pyStrip ([] : Str) = [] := by decide
    simp [parseCSV, h1, h2]
  · have hstrip : pyStrip (csv ++ ['\n']) = pyStrip csv :=
      pyStrip_append_space csv (by decide)
    rcases eq_or_ne (pyStrip csv) [] with he | he
    · simp [parseCSV, hstrip, he]
    · have hsplit := pySplitlines_append_lf csv hne h
      simp only [parseCSV, hstrip, hsplit]

/-- Witness for the amended C8 at a concrete newline-free-tail CSV. -/
theorem c8_trailing_newline_amended_witness :
    parseCSV true ("User Name,Access Key ID,Secret Access key\nalice,AKIA1,SECRET1".data
      ++ ['\n'])
      = parseCSV true "User Name,Access Key ID,Secret Access key\nalice,AKIA1,SECRET1".data :=
  c8_trailing_newline_amended true
    "User Name,Access Key ID,Secret Access key\nalice,AKIA1,SECRET1".data
    (by decide)

/-! ## Merge-writer lemmas: key lines -/

theorem beforeEq_no_eq {l : Str} : ∀ c ∈ beforeEq l, c ≠ '=' := by
  intro c hc
  have h := List.mem_takeWhile_imp hc
  simpa using h

theorem beforeEq_append {xs ys : Str} (h : ∀ c ∈ xs, c ≠ '=') :
    beforeEq (xs ++ '=' :: ys) = xs ∧ fromEq (xs ++ '=' :: ys) = '=' :: ys := by
  constructor
  · rw [beforeEq, List.takeWhile_append_of_pos (by intro a ha; simpa using h a ha)]
    simp
  · rw [fromEq, List.dropWhile_append_of_pos (by intro a ha; simpa using h a ha)]
    simp

theorem replaceValue_decomp (l v : Str) :
    beforeEq (replaceValue l v) = beforeEq l ∧
      fromEq (replaceValue l v) = '=' :: ' ' :: v :=
  beforeEq_append (fun c hc => beforeEq_no_eq c hc)

theorem lineKey_replaceValue (l v : Str) :
    lineKey (replaceValue l v) = some (pyStrip (beforeEq l)) := by
  rw [lineKey, if_neg (by simp [(replaceValue_decomp l v).2]),
    (replaceValue_decomp l v).1]

theorem replaceValue_replaceValue (l v w : Str) :
    replaceValue (replaceValue l v) w = replaceValue l w := by
  rw [replaceValue, (replaceValue_decomp l v).1, replaceValue]

theorem pyStrip_cons_space {c : Char} (l : Str) (hc : isSpace c = true) :
    pyStrip (c :: l) = pyStrip l := by
  unfold pyStrip
  rw [List.dropWhile_cons_of_pos hc]

theorem no_eq_cons_space {k : Str} (hk : '=' ∉ k) :
    ∀ c ∈ k ++ [' '], c ≠ '=' := by
  intro c hc hcontra
  subst hcontra
  rcases List.mem_append.mp hc with h | h
  · exact hk h
  · exact absurd (List.mem_singleton.mp h) (by decide)

theorem no_eq_canon_head {k : Str} (hk : '=' ∉ k) :
    ∀ c ∈ ' ' :: ' ' :: (k ++ [' ']), c ≠ '=' := by
  intro c hc hcontra
  subst hcontra
  rcases List.mem_cons.mp hc with h | hc2
  · exact absurd h (by decide)
  rcases List.mem_cons.mp hc2 with h | hc3
  · exact absurd h (by decide)
  exact no_eq_cons_space hk '=' hc3 rfl

theorem sectionKeyLine_decomp {k : Str} (v : Str) (hk : '=' ∉ k) :
    beforeEq (sectionKeyLine k v) = k ++ [' '] ∧
      fromEq (sectionKeyLine k v) = '=' :: ' ' :: v := by
  have he : sectionKeyLine k v = (k ++ [' ']) ++ '=' :: ' ' :: v := by
    simp [sectionKeyLine]
  rw [he]
  exact beforeEq_append (no_eq_cons_space hk)

theorem lineKey_sectionKeyLine {k : Str} (v : Str) (hk : '=' ∉ k) :
    lineKey (sectionKeyLine k v) = some (pyStrip k) := by
  rw [lineKey, if_neg (by simp [(sectionKeyLine_decomp v hk).2]),
    (sectionKeyLine_decomp v hk).1, pyStrip_append_space k (by decide)]

theorem replaceValue_sectionKeyLine {k : Str} (v : Str) (hk : '=' ∉ k) :
    replaceValue (sectionKeyLine k v) v = sectionKeyLine k v := by
  rw [replaceValue, (sectionKeyLine_decomp v hk).1]
  simp [sectionKeyLine]

theorem canonLine_eq_sectionKeyLine (k v : Str) :
    canonLine k v = ' ' :: ' ' :: sectionKeyLine k v := rfl

theorem canonLine_decomp {k : Str} (v : Str) (hk : '=' ∉ k) :
    beforeEq (canonLine k v) = ' ' :: ' ' :: (k ++ [' ']) ∧
      fromEq (canonLine k v) = '=' :: ' ' :: v := by
  have he : canonLine k v = (' ' :: ' ' :: (k ++ [' '])) ++ '=' :: ' ' :: v := by
    simp [canonLine]
  rw [he]
  exact beforeEq_append (no_eq_canon_head hk)

theorem lineKey_canonLine {k : Str} (v : Str) (hk : '=' ∉ k) :
    lineKey (canonLine k v) = some (pyStrip k) := by
  rw [lineKey, if_neg (by simp [(canonLine_decomp v hk).2]), (canonLine_decomp v hk).1,
    pyStrip_cons_space _ (by decide), pyStrip_cons_space _ (by decide),
    pyStrip_append_space k (by decide)]

theorem replaceValue_canonLine {k : Str} (v : Str) (hk : '=' ∉ k) :
    replaceValue (canonLine k v) v = canonLine k v := by
  rw [replaceValue, (canonLine_decomp v hk).1]
  simp [canonLine]

/-! ## Merge-writer lemmas: updating keys within a span -/

theorem updateKey_nil (k v : Str) : updateKey k v [] = [canonLine k v] := rfl

theorem updateKey_cons (k v l : Str) (ls : List Str) :
    updateKey k v (l :: ls) =
      if lineKey l = some (pyStrip k) then replaceValue l v :: ls
      else l :: updateKey k v ls := rfl

theorem lineKey_replaceValue_of_some {l t v : Str} (hm : lineKey l = some t) :
    lineKey (replaceValue l v) = some t := by
  rw [lineKey_replaceValue]
  rw [lineKey] at hm
  by_cases hf : fromEq l = []
  · rw [if_pos hf] at hm
    exact Option.noConfusion hm
  · rw [if_neg hf] at hm
    exact hm

theorem updateKey_idem {k : Str} (v : Str) (s : List Str) (hk : '=' ∉ k) :
    updateKey k v (updateKey k v s) = updateKey k v s := by
  induction s with
  | nil =>
    rw [updateKey_nil, updateKey_cons,
      if_pos (lineKey_canonLine v hk), replaceValue_canonLine v hk]
  | cons l ls ih =>
    by_cases hm : lineKey l = some (pyStrip k)
    · rw [updateKey_cons, if_pos hm, updateKey_cons,
        if_pos (lineKey_replaceValue_of_some hm), replaceValue_replaceValue]
    · rw [updateKey_cons, if_neg hm, updateKey_cons, if_neg hm, ih]

theorem updateKey_fixed_preserved {k k' : Str} (v v' : Str) {t : List Str}
    (hfix : updateKey k v t = t) (hne : pyStrip k ≠ pyStrip k') :
    updateKey k v (updateKey k' v' t) = updateKey k' v' t := by
  induction t with
  | nil =>
    exfalso
    rw [updateKey_nil] at hfix
    exact List.noConfusion hfix
  | cons l ls ih =>
    by_cases hm : lineKey l = some (pyStrip k)
    · rw [updateKey_cons, if_pos hm] at hfix
      injection hfix with hr htail
      by_cases hm' : lineKey l = some (pyStrip k')
      · exfalso
        rw [hm] at hm'
        injection hm' with h''
        exact hne h''
      · rw [updateKey_cons, if_neg hm', updateKey_cons, if_pos hm, hr]
    · rw [updateKey_cons, if_neg hm] at hfix
      injection hfix with hhead hls
      by_cases hm' : lineKey l = some (pyStrip k')
      · rw [updateKey_cons, if_pos hm']
        have hkey : lineKey (replaceValue l v') = some (pyStrip k') :=
          lineKey_replaceValue_of_some hm'
        have hne' : ¬ lineKey (replaceValue l v') = some (pyStrip k) := by
          rw [hkey]
          intro hc
          injection hc with hc'
          exact hne hc'.symm
        rw [updateKey_cons, if_neg hne', hls]
      · rw [updateKey_cons, if_neg hm', updateKey_cons, if_neg hm, ih hls]

theorem updateSpan_nil_keys (span : List Str) : updateSpan [] span = span := rfl

theorem updateSpan_cons_keys (k v : Str) (rest : List (Str × Str))
    (span : List Str) :
    updateSpan ((k, v) :: rest) span = updateSpan rest (updateKey k v span) := rfl

theorem updateSpan_fixed {kvs : List (Str × Str)} {t : List Str}
    (h : ∀ kv ∈ kvs, updateKey kv.1 kv.2 t = t) : updateSpan kvs t = t := by
  induction kvs with
  | nil => rfl
  | cons kv rest ih =>
    obtain ⟨k, v⟩ := kv
    rw [updateSpan_cons_keys, h (k, v) (by simp)]
    exact ih (fun kv hkv => h kv (by simp [hkv]))

theorem updateKey_fixed_updateSpan {k v : Str} {kvs : List (Str × Str)}
    {t : List Str} (hfix : updateKey k v t = t)
    (hne : ∀ kv ∈ kvs, pyStrip kv.1 ≠ pyStrip k) :
    updateKey k v (updateSpan kvs t) = updateSpan kvs t := by
  induction kvs generalizing t with
  | nil => exact hfix
  | cons kv rest ih =>
    obtain ⟨k', v'⟩ := kv
    rw [updateSpan_cons_keys]
    refine ih ?_ (fun kv hkv => hne kv (by simp [hkv]))
    exact updateKey_fixed_preserved v v' hfix
      (fun hc => hne (k', v') (by simp) hc.symm)

theorem updateSpan_all_fixed {kvs : List (Str × Str)} (s : List Str)
    (hk : ∀ kv ∈ kvs, '=' ∉ kv.1)
    (hnd : (kvs.map (fun kv => pyStrip kv.1)).Nodup) :
    ∀ kv ∈ kvs, updateKey kv.1 kv.2 (updateSpan kvs s) = updateSpan kvs s := by
  induction kvs generalizing s with
  | nil =>
    intro kv hkv
    exact absurd hkv (by simp)
  | cons a rest ih =>
    obtain ⟨k, v⟩ := a
    intro kv hkv
    rw [updateSpan_cons_keys]
    rcases List.mem_cons.mp hkv with heq | hkv'
    · subst heq
      refine updateKey_fixed_updateSpan (updateKey_idem v s (hk (k, v) (by simp))) ?_
      intro kv' hkv' hc
      have hnotin : pyStrip k ∉ rest.map (fun kv => pyStrip kv.1) :=
        (List.nodup_cons.mp (by simpa using hnd)).1
      exact hnotin (hc ▸ List.mem_map_of_mem (fun kv => pyStrip kv.1) hkv')
    · exact ih (updateKey k v s) (fun kv hkv => hk kv (by simp [hkv]))
        (List.nodup_cons.mp (by simpa using hnd)).2 kv hkv'

theorem updateSpan_idem (kvs : List (Str × Str)) (s : List Str)
    (hk : ∀ kv ∈ kvs, '=' ∉ kv.1)
    (hnd : (kvs.map (fun kv => pyStrip kv.1)).Nodup) :
    updateSpan kvs (updateSpan kvs s) = updateSpan kvs s :=
  updateSpan_fixed (updateSpan_all_fixed s hk hnd)

/-! ## Merge-writer lemmas: header lines and section structure -/

theorem pyStrip_head (l : Str) :
    (pyStrip l).head? = (l.dropWhile isSpace).head? := by
  unfold pyStrip
  cases hy : l.dropWhile isSpace with
  | nil => simp
  | cons c ys =>
    have hc : isSpace c = false := by
      have h := List.head?_dropWhile_not isSpace l
      rw [hy] at h
      simpa using h
    rw [List.reverse_cons, List.dropWhile_append]
    by_cases he : (ys.reverse.dropWhile isSpace).isEmpty
    · rw [if_pos he, List.dropWhile_cons_of_neg (by simp [hc])]
      simp
    · rw [if_neg he]
      simp

theorem isHeaderLine_false_of_head {l : Str}
    (h : (pyStrip l).head? ≠ some '[') : isHeaderLine l = false := by
  rw [isHeaderLine]
  simp [h]

theorem head_dropWhile_append_eq (xs ys : Str) (hy : ys.head? = some '=') :
    ((xs ++ ys).dropWhile isSpace).head? =
      if (xs.dropWhile isSpace).isEmpty then some '=' else
        (xs.dropWhile isSpace).head? := by
  rw [List.dropWhile_append]
  by_cases he : (xs.dropWhile isSpace).isEmpty
  · rw [if_pos he, if_pos he]
    cases ys with
    | nil => exact Option.noConfusion hy
    | cons c cs =>
      have : c = '=' := by
        injection hy
      subst this
      rw [List.dropWhile_cons_of_neg (by decide)]
      simp
  · rw [if_neg he, if_neg he]
    cases hx : xs.dropWhile isSpace with
    | nil => simp [hx] at he
    | cons c cs => simp

theorem isHeaderLine_replaceValue {l v t : Str}
    (hm : lineKey l = some t) (hh : t.head? ≠ some '[') :
    isHeaderLine (replaceValue l v) = false := by
  refine isHeaderLine_false_of_head ?_
  rw [pyStrip_head, replaceValue,
    head_dropWhile_append_eq (beforeEq l) ('=' :: ' ' :: v) rfl]
  by_cases he : ((beforeEq l).dropWhile isSpace).isEmpty
  · rw [if_pos he]
    decide
  · rw [if_neg he, ← pyStrip_head]
    have ht : t = pyStrip (beforeEq l) := by
      rw [lineKey] at hm
      by_cases hf : fromEq l = []
      · rw [if_pos hf] at hm
        exact Option.noConfusion hm
      · rw [if_neg hf] at hm
        injection hm with hm'
        exact hm'.symm
    rw [← ht]
    exact hh

theorem isHeaderLine_sectionKeyLine {k : Str} (v : Str)
    (hh : (pyStrip k).head? ≠ some '[') :
    isHeaderLine (sectionKeyLine k v) = false := by
  refine isHeaderLine_false_of_head ?_
  have he : sectionKeyLine k v = k ++ ' ' :: '=' :: ' ' :: v := rfl
  rw [pyStrip_head, he]
  rw [List.dropWhile_append]
  by_cases hemp : (k.dropWhile isSpace).isEmpty
  · rw [if_pos hemp, List.dropWhile_cons_of_pos (by decide),
      List.dropWhile_cons_of_neg (by decide)]
    simp
  · rw [if_neg hemp]
    cases hx : k.dropWhile isSpace with
    | nil => simp [hx] at hemp
    | cons c cs =>
      rw [pyStrip_head, hx] at hh
      simpa using hh

theorem isHeaderLine_canonLine {k : Str} (v : Str)
    (hh : (pyStrip k).head? ≠ some '[') :
    isHeaderLine (canonLine k v) = false := by
  have h1 : pyStrip (canonLine k v) = pyStrip (sectionKeyLine k v) := by
    rw [canonLine_eq_sectionKeyLine, pyStrip_cons_space _ (by decide),
      pyStrip_cons_space _ (by decide)]
  rw [isHeaderLine, h1, ← isHeaderLine]
  exact isHeaderLine_sectionKeyLine v hh

theorem updateKey_nonheader {k v : Str} {s : List Str}
    (hh : (pyStrip k).head? ≠ some '[')
    (hs : ∀ l ∈ s, isHeaderLine l = false) :
    ∀ l ∈ updateKey k v s, isHeaderLine l = false := by
  induction s with
  | nil =>
    intro l hl
    rw [updateKey_nil] at hl
    rcases List.mem_singleton.mp hl with rfl
    exact isHeaderLine_canonLine v hh
  | cons x xs ih =>
    intro l hl
    by_cases hm : lineKey x = some (pyStrip k)
    · rw [updateKey_cons, if_pos hm] at hl
      rcases List.mem_cons.mp hl with rfl | hl'
      · exact isHeaderLine_replaceValue hm hh
      · exact hs l (by simp [hl'])
    · rw [updateKey_cons, if_neg hm] at hl
      rcases List.mem_cons.mp hl with rfl | hl'
      · exact hs l (by simp)
      · exact ih (fun l' hl' => hs l' (by simp [hl'])) l hl'

theorem updateSpan_nonheader {kvs : List (Str × Str)} {s : List Str}
    (hk : ∀ kv ∈ kvs, '=' ∉ kv.1)
    (hh : ∀ kv ∈ kvs, (pyStrip kv.1).head? ≠ some '[')
    (hs : ∀ l ∈ s, isHeaderLine l = false) :
    ∀ l ∈ updateSpan kvs s, isHeaderLine l = false := by
  induction kvs generalizing s with
  | nil => exact hs
  | cons a rest ih =>
    obtain ⟨k, v⟩ := a
    rw [updateSpan_cons_keys]
    exact ih (fun kv hkv => hk kv (by simp [hkv]))
      (fun kv hkv => hh kv (by simp [hkv]))
      (updateKey_nonheader (hh (k, v) (by simp)) hs)

theorem splitAtSection_nil (name : Str) : splitAtSection name [] = none := rfl

theorem splitAtSection_cons (name l : Str) (ls : List Str) :
    splitAtSection name (l :: ls) =
      if matchesSection name l then some ([l], ls)
      else (splitAtSection name ls).map (fun pr => (l :: pr.1, pr.2)) := rfl

theorem splitAtSection_some {name : Str} {lines pre post : List Str}
    (h : splitAtSection name lines = some (pre, post)) :
    lines = pre ++ post ∧ ∃ nm hdr, pre = nm ++ [hdr] ∧
      (∀ l ∈ nm, matchesSection name l = false) ∧
      matchesSection name hdr = true := by
  induction lines generalizing pre post with
  | nil => exact Option.noConfusion (splitAtSection_nil name ▸ h)
  | cons l ls ih =>
    rw [splitAtSection_cons] at h
    by_cases hm : matchesSection name l
    · rw [if_pos hm] at h
      injection h with h'
      injection h' with h1 h2
      subst h1
      subst h2
      exact ⟨rfl, [], l, by simp, by simp, hm⟩
    · rw [if_neg hm] at h
      cases hrec : splitAtSection name ls with
      | none =>
        rw [hrec] at h
        exact Option.noConfusion h
      | some pr =>
        obtain ⟨pre', post'⟩ := pr
        rw [hrec] at h
        injection h with h'
        injection h' with h1 h2
        subst h1
        subst h2
        obtain ⟨heq, nm, hdr, hpre, hnm, hhdr⟩ := ih hrec
        refine ⟨by simp [heq], l :: nm, hdr, by simp [hpre], ?_, hhdr⟩
        intro x hx
        rcases List.mem_cons.mp hx with rfl | hx'
        · simpa using hm
        · exact hnm x hx'

theorem splitAtSection_build {name hdr : Str} {nm : List Str}
    (hnm : ∀ l ∈ nm, matchesSection name l = false)
    (hhdr : matchesSection name hdr = true) (post' : List Str) :
    splitAtSection name (nm ++ hdr :: post') = some (nm ++ [hdr], post') := by
  induction nm with
  | nil =>
    rw [List.nil_append, splitAtSection_cons, if_pos hhdr]
    simp
  | cons l ls ih =>
    rw [List.cons_append, splitAtSection_cons,
      if_neg (by simp [hnm l (by simp)]),
      ih (fun x hx => hnm x (by simp [hx]))]
    simp

theorem splitAtSection_none {name : Str} {lines : List Str}
    (h : splitAtSection name lines = none) :
    ∀ l ∈ lines, matchesSection name l = false := by
  induction lines with
  | nil => simp
  | cons l ls ih =>
    rw [splitAtSection_cons] at h
    by_cases hm : matchesSection name l
    · rw [if_pos hm] at h
      exact Option.noConfusion h
    · rw [if_neg hm] at h
      intro x hx
      rcases List.mem_cons.mp hx with rfl | hx'
      · simpa using hm
      · cases hrec : splitAtSection name ls with
        | none => exact ih hrec x hx'
        | some pr =>
          rw [hrec] at h
          exact Option.noConfusion h

theorem takeWhile_dropWhile_self {α : Type} (p : α → Bool) (l : List α) :
    (l.dropWhile p).takeWhile p = [] := by
  cases hd : l.dropWhile p with
  | nil => rfl
  | cons c cs =>
    have hc : p c = false := by
      have h := List.head?_dropWhile_not p l
      rw [hd] at h
      simpa using h
    rw [List.takeWhile_cons_of_neg (by simp [hc])]

theorem dropWhile_dropWhile_self {α : Type} (p : α → Bool) (l : List α) :
    (l.dropWhile p).dropWhile p = l.dropWhile p := by
  cases hd : l.dropWhile p with
  | nil => rfl
  | cons c cs =>
    have hc : p c = false := by
      have h := List.head?_dropWhile_not p l
      rw [hd] at h
      simpa using h
    rw [List.dropWhile_cons_of_neg (by simp [hc])]

theorem pyStrip_of_ends {l : Str}
    (h1 : ∀ c, l.head? = some c → isSpace c = false)
    (h2 : ∀ c, l.getLast? = some c → isSpace c = false) : pyStrip l = l := by
  unfold pyStrip
  have hfront : l.dropWhile isSpace = l := by
    cases l with
    | nil => rfl
    | cons c cs => exact List.dropWhile_cons_of_neg (by simp [h1 c rfl])
  rw [hfront]
  cases hrev : l.reverse with
  | nil =>
    have : l = [] := by simpa using congrArg List.reverse hrev
    simp [this]
  | cons d t =>
    have hd : isSpace d = false := by
      refine h2 d ?_
      rw [← List.head?_reverse, hrev]
      rfl
    have hdw : List.dropWhile isSpace (d :: t) = d :: t :=
      List.dropWhile_cons_of_neg (by simp [hd])
    rw [hdw]
    simpa using congrArg List.reverse hrev.symm

theorem matchesSection_newHeader (name : Str) :
    matchesSection name ('[' :: (name ++ [']'])) = true := by
  have hstrip : pyStrip ('[' :: (name ++ [']'])) = '[' :: (name ++ [']']) := by
    refine pyStrip_of_ends ?_ ?_
    · intro c hc
      injection hc with hc'
      subst hc'
      decide
    · intro c hc
      have : ('[' :: (name ++ [']'])).getLast? = some ']' := by
        rw [show '[' :: (name ++ [']']) = ('[' :: name) ++ [']'] by simp]
        exact List.getLast?_concat _
      rw [this] at hc
      injection hc with hc'
      subst hc'
      decide
  rw [matchesSection, isHeaderLine, headerNameOf, hstrip]
  have hlast : ('[' :: (name ++ [']'])).getLast? = some ']' := by
    rw [show '[' :: (name ++ [']']) = ('[' :: name) ++ [']'] by simp]
    exact List.getLast?_concat _
  rw [hlast]
  simp

theorem takeWhile_all {α : Type} {p : α → Bool} {l : List α}
    (h : ∀ x ∈ l, p x = true) : l.takeWhile p = l := by
  induction l with
  | nil => rfl
  | cons x xs ih =>
    rw [List.takeWhile_cons_of_pos (h x (by simp)),
      ih (fun x hx => h x (by simp [hx]))]

theorem dropWhile_all {α : Type} {p : α → Bool} {l : List α}
    (h : ∀ x ∈ l, p x = true) : l.dropWhile p = [] := by
  induction l with
  | nil => rfl
  | cons x xs ih =>
    rw [List.dropWhile_cons_of_pos (h x (by simp)),
      ih (fun x hx => h x (by simp [hx]))]

theorem matchesSection_nil (name : Str) : matchesSection name [] = false := by
  rw [matchesSection, (by decide : isHeaderLine [] = false)]
  simp

theorem blankSep_mem {lines : List Str} {l : Str} (h : l ∈ blankSep lines) :
    l = [] := by
  rw [blankSep] at h
  cases hb : lines.getLast? with
  | none =>
    rw [hb] at h
    exact absurd h (by simp)
  | some x =>
    simp only [hb] at h
    by_cases hx : pyStrip x = []
    · rw [if_pos hx] at h
      exact absurd h (by simp)
    · rw [if_neg hx] at h
      exact List.mem_singleton.mp h

theorem updateKey_fresh_keyLines {kvs : List (Str × Str)}
    (hk : ∀ kv ∈ kvs, '=' ∉ kv.1)
    (hnd : (kvs.map (fun kv => pyStrip kv.1)).Nodup) :
    ∀ kv ∈ kvs, updateKey kv.1 kv.2
      (kvs.map (fun x => sectionKeyLine x.1 x.2)) =
        kvs.map (fun x => sectionKeyLine x.1 x.2) := by
  induction kvs with
  | nil =>
    intro kv hkv
    exact absurd hkv (by simp)
  | cons a rest ih =>
    obtain ⟨k, v⟩ := a
    intro kv hkv
    simp only [List.map_cons]
    rcases List.mem_cons.mp hkv with heq | hkv'
    · subst heq
      rw [updateKey_cons,
        if_pos (lineKey_sectionKeyLine v (hk (k, v) (by simp))),
        replaceValue_sectionKeyLine v (hk (k, v) (by simp))]
    · have hne : pyStrip kv.1 ≠ pyStrip k := by
        intro hc
        have hnotin : pyStrip k ∉ rest.map (fun kv => pyStrip kv.1) :=
          (List.nodup_cons.mp (by simpa using hnd)).1
        exact hnotin (hc ▸ List.mem_map_of_mem (fun kv => pyStrip kv.1) hkv')
      rw [updateKey_cons, if_neg ?_, ih (fun kv hkv => hk kv (by simp [hkv]))
        (List.nodup_cons.mp (by simpa using hnd)).2 kv hkv']
      rw [lineKey_sectionKeyLine v (hk (k, v) (by simp))]
      intro hc
      injection hc with hc'
      exact hne hc'.symm

theorem updateSection_found {p : ConfigProfile} {lines pre post : List Str}
    (h : splitAtSection p.sectionName lines = some (pre, post)) :
    updateSection p lines =
      pre ++ updateSpan p.keys (post.takeWhile (fun l => !isHeaderLine l)) ++
        post.dropWhile (fun l => !isHeaderLine l) := by
  simp only [updateSection, h]

theorem updateSection_notfound {p : ConfigProfile} {lines : List Str}
    (h : splitAtSection p.sectionName lines = none) :
    updateSection p lines = lines ++ blankSep lines ++ newSectionLines p := by
  simp only [updateSection, h]

/-- C5: merging the same profile into a config file twice is idempotent —
the file after the second merge is identical to the file after the first,
with no duplicate keys or sections introduced (for profiles whose keys
contain no `=`, do not begin with `[`, and are pairwise distinct, as the
credential profiles written by this tool are). -/
theorem c5_update_idempotent (p : ConfigProfile) (lines : List Str)
    (hk : ∀ kv ∈ p.keys, '=' ∉ kv.1)
    (hh : ∀ kv ∈ p.keys, (pyStrip kv.1).head? ≠ some '[')
    (hnd : (p.keys.map (fun kv => pyStrip kv.1)).Nodup) :
    updateSection p (updateSection p lines) = updateSection p lines := by
  cases hfind : splitAtSection p.sectionName lines with
  | some pr =>
    obtain ⟨pre, post⟩ := pr
    have h1 := updateSection_found hfind
    obtain ⟨-, nm, hdr, hpre, hnm, hhdr⟩ := splitAtSection_some hfind
    have hspan_nh : ∀ l ∈ post.takeWhile (fun l => !isHeaderLine l),
        isHeaderLine l = false := by
      intro l hl
      have h' := List.mem_takeWhile_imp hl
      simpa using h'
    have hU_q : ∀ l ∈ updateSpan p.keys (post.takeWhile (fun l => !isHeaderLine l)),
        (fun l => !isHeaderLine l) l = true := by
      intro l hl
      simp [updateSpan_nonheader hk hh hspan_nh l hl]
    have hfind2 : splitAtSection p.sectionName
        (pre ++ (updateSpan p.keys (post.takeWhile (fun l => !isHeaderLine l)) ++
          post.dropWhile (fun l => !isHeaderLine l))) =
        some (pre, updateSpan p.keys (post.takeWhile (fun l => !isHeaderLine l)) ++
          post.dropWhile (fun l => !isHeaderLine l)) := by
      rw [hpre, List.append_assoc, List.singleton_append]
      rw [splitAtSection_build hnm hhdr]
    have htake : (updateSpan p.keys (post.takeWhile (fun l => !isHeaderLine l)) ++
        post.dropWhile (fun l => !isHeaderLine l)).takeWhile
          (fun l => !isHeaderLine l) =
        updateSpan p.keys (post.takeWhile (fun l => !isHeaderLine l)) := by
      rw [List.takeWhile_append_of_pos hU_q, takeWhile_dropWhile_self]
      simp
    have hdrop : (updateSpan p.keys (post.takeWhile (fun l => !isHeaderLine l)) ++
        post.dropWhile (fun l => !isHeaderLine l)).dropWhile
          (fun l => !isHeaderLine l) =
        post.dropWhile (fun l => !isHeaderLine l) := by
      rw [List.dropWhile_append_of_pos hU_q, dropWhile_dropWhile_self]
    rw [h1, List.append_assoc, updateSection_found hfind2, htake, hdrop,
      updateSpan_idem p.keys _ hk hnd, List.append_assoc]
  | none =>
    have h1 := updateSection_notfound hfind
    have hnm : ∀ l ∈ lines ++ blankSep lines,
        matchesSection p.sectionName l = false := by
      intro l hl
      rcases List.mem_append.mp hl with h' | h'
      · exact splitAtSection_none hfind l h'
      · rw [blankSep_mem h']
        exact matchesSection_nil p.sectionName
    have hnew : newSectionLines p = ('[' :: (p.sectionName ++ [']'])) ::
        p.keys.map (fun x => sectionKeyLine x.1 x.2) := rfl
    have hfind2 : splitAtSection p.sectionName
        (lines ++ blankSep lines ++ newSectionLines p) =
        some ((lines ++ blankSep lines) ++ ['[' :: (p.sectionName ++ [']'])],
          p.keys.map (fun x => sectionKeyLine x.1 x.2)) := by
      rw [hnew]
      exact splitAtSection_build hnm (matchesSection_newHeader p.sectionName) _
    have hkey_q : ∀ l ∈ p.keys.map (fun x => sectionKeyLine x.1 x.2),
        (fun l => !isHeaderLine l) l = true := by
      intro l hl
      obtain ⟨kv, hkv, rfl⟩ := List.mem_map.mp hl
      simp [isHeaderLine_sectionKeyLine _ (hh kv hkv)]
    rw [h1, updateSection_found hfind2, takeWhile_all hkey_q, dropWhile_all hkey_q,
      updateSpan_fixed (updateKey_fresh_keyLines hk hnd), hnew]
    simp

/-- Witness for C5 at the credential profile and a concrete file with an
existing section, a comment and an unrelated section. -/
theorem c5_update_idempotent_witness :
    updateSection (importProfile ("alice".data, "AK1".data, "SK1".data))
      (updateSection (importProfile ("alice".data, "AK1".data, "SK1".data))
        ["# comment".data, "[other]".data, "x = y".data])
      = updateSection (importProfile ("alice".data, "AK1".data, "SK1".data))
        ["# comment".data, "[other]".data, "x = y".data] :=
  c5_update_idempotent (importProfile ("alice".data, "AK1".data, "SK1".data))
    ["# comment".data, "[other]".data, "x = y".data]
    (by decide) (by decide) (by decide)


theorem lineUpd_refl (kvs : List (Str × Str)) (l : Str) : lineUpd kvs l l :=
  Or.inl rfl

theorem forall2_lineUpd_refl (kvs : List (Str × Str)) (s : List Str) :
    List.Forall₂ (lineUpd kvs) s s :=
  List.forall₂_same.mpr (fun l _ => lineUpd_refl kvs l)

theorem lineUpd_trans {kvs : List (Str × Str)} {o m n : Str}
    (h1 : lineUpd kvs o m) (h2 : lineUpd kvs m n) : lineUpd kvs o n := by
  rcases h1 with rfl | ⟨kv, hkv, hko, hrepl, hbe⟩
  · exact h2
  · rcases h2 with rfl | ⟨kv', hkv', hkm, hrepl', hbe'⟩
    · exact Or.inr ⟨kv, hkv, hko, hrepl, hbe⟩
    · refine Or.inr ⟨kv', hkv', ?_, ?_, ?_⟩
      · have hfo : fromEq o ≠ [] := by
          rw [lineKey] at hko
          by_cases hf : fromEq o = []
          · rw [if_pos hf] at hko
            exact absurd hko (by simp)
          · exact hf
        have hos : lineKey o = some (pyStrip (beforeEq o)) := by
          rw [lineKey, if_neg hfo]
        have hms : lineKey m = some (pyStrip (beforeEq o)) := by
          rw [hrepl, lineKey_replaceValue]
        rw [hms] at hkm
        injection hkm with hkm'
        rw [hos, hkm']
      · rw [hrepl', hrepl, replaceValue_replaceValue]
      · rw [hrepl', hrepl, replaceValue_replaceValue]
        exact (replaceValue_decomp o kv'.2).1

theorem forall2_lineUpd_trans {kvs : List (Str × Str)} {s t u : List Str}
    (h1 : List.Forall₂ (lineUpd kvs) s t)
    (h2 : List.Forall₂ (lineUpd kvs) t u) :
    List.Forall₂ (lineUpd kvs) s u := by
  induction h1 generalizing u with
  | nil =>
    cases h2
    exact List.Forall₂.nil
  | cons hr hrest ih =>
    cases h2 with
    | cons hr2 hrest2 => exact List.Forall₂.cons (lineUpd_trans hr hr2) (ih hrest2)

theorem updateKey_forall2 {kvs : List (Str × Str)} {k v : Str} {s : List Str}
    (hmem : (k, v) ∈ kvs) (hex : ∃ l ∈ s, lineKey l = some (pyStrip k)) :
    List.Forall₂ (lineUpd kvs) s (updateKey k v s) := by
  induction s with
  | nil =>
    obtain ⟨l, hl, -⟩ := hex
    exact absurd hl (by simp)
  | cons l ls ih =>
    by_cases hm : lineKey l = some (pyStrip k)
    · rw [updateKey_cons, if_pos hm]
      exact List.Forall₂.cons
        (Or.inr ⟨(k, v), hmem, hm, rfl, (replaceValue_decomp l v).1⟩)
        (forall2_lineUpd_refl kvs ls)
    · rw [updateKey_cons, if_neg hm]
      obtain ⟨l', hl', hkey⟩ := hex
      rcases List.mem_cons.mp hl' with rfl | hl''
      · exact absurd hkey hm
      · exact List.Forall₂.cons (lineUpd_refl kvs l) (ih ⟨l', hl'', hkey⟩)

theorem updateKey_preserves_match {k' v' t : Str} {s : List Str}
    (hex : ∃ l ∈ s, lineKey l = some t) :
    ∃ l' ∈ updateKey k' v' s, lineKey l' = some t := by
  induction s with
  | nil =>
    obtain ⟨l, hl, -⟩ := hex
    exact absurd hl (by simp)
  | cons l ls ih =>
    obtain ⟨l0, hl0, hkey⟩ := hex
    by_cases hm : lineKey l = some (pyStrip k')
    · rw [updateKey_cons, if_pos hm]
      rcases List.mem_cons.mp hl0 with rfl | hl0'
      · exact ⟨replaceValue l0 v', by simp, lineKey_replaceValue_of_some hkey⟩
      · exact ⟨l0, by simp [hl0'], hkey⟩
    · rw [updateKey_cons, if_neg hm]
      rcases List.mem_cons.mp hl0 with rfl | hl0'
      · exact ⟨l0, by simp, hkey⟩
      · obtain ⟨l', hl', hkey'⟩ := ih ⟨l0, hl0', hkey⟩
        exact ⟨l', by simp [hl'], hkey'⟩

theorem updateSpan_forall2 {kvsAll kvs : List (Str × Str)} {s : List Str}
    (hsub : ∀ kv ∈ kvs, kv ∈ kvsAll)
    (hex : ∀ kv ∈ kvs, ∃ l ∈ s, lineKey l = some (pyStrip kv.1)) :
    List.Forall₂ (lineUpd kvsAll) s (updateSpan kvs s) := by
  induction kvs generalizing s with
  | nil => exact forall2_lineUpd_refl kvsAll s
  | cons a rest ih =>
    obtain ⟨k, v⟩ := a
    rw [updateSpan_cons_keys]
    refine forall2_lineUpd_trans
      (updateKey_forall2 (hsub (k, v) (by simp)) (hex (k, v) (by simp))) ?_
    refine ih (fun kv hkv => hsub kv (by simp [hkv])) ?_
    intro kv hkv
    exact updateKey_preserves_match (hex kv (by simp [hkv]))

/-- C6: frame property of the merge — when the profile's section exists and
its span holds a key line for every profile key (in particular an
`aws_access_key_id` line, whatever its current value), the merge rewrites
only the value text of those key lines, preserving each line's text before
the `=`; every other line — the lines before the section header, comments
and blank lines inside the span, and everything from the next section
header on (an unrelated second section included) — is byte-identical to the
file before the merge. -/
theorem c6_merge_frame (p : ConfigProfile) (lines pre post : List Str)
    (hfind : splitAtSection p.sectionName lines = some (pre, post))
    (hex : ∀ kv ∈ p.keys, ∃ l ∈ post.takeWhile (fun l => !isHeaderLine l),
      lineKey l = some (pyStrip kv.1)) :
    ∃ span', List.Forall₂ (lineUpd p.keys)
        (post.takeWhile (fun l => !isHeaderLine l)) span' ∧
      updateSection p lines =
        pre ++ span' ++ post.dropWhile (fun l => !isHeaderLine l) :=
  ⟨updateSpan p.keys (post.takeWhile (fun l => !isHeaderLine l)),
    updateSpan_forall2 (fun _ h => h) hex,
    updateSection_found hfind⟩

/-- Witness for C6 at a concrete file holding the section with both key
lines (the access-key line with a different value), a comment, and an
unrelated second section. -/
theorem c6_merge_frame_witness :
    ∃ span', List.Forall₂
        (lineUpd (importProfile ("alice".data, "AK2".data, "SK1".data)).keys)
        (["aws_access_key_id = AK1".data, "aws_secret_access_key = SK1".data,
          "".data].takeWhile (fun l => !isHeaderLine l)) span' ∧
      updateSection (importProfile ("alice".data, "AK2".data, "SK1".data))
          ["# note".data, "[alice]".data, "aws_access_key_id = AK1".data,
           "aws_secret_access_key = SK1".data, "".data, "[other]".data,
           "x = y".data] =
        ["# note".data, "[alice]".data] ++ span' ++
          (["aws_access_key_id = AK1".data, "aws_secret_access_key = SK1".data,
            "".data, "[other]".data, "x = y".data].dropWhile
              (fun l => !isHeaderLine l)) := by
  have h := c6_merge_frame (importProfile ("alice".data, "AK2".data, "SK1".data))
    ["# note".data, "[alice]".data, "aws_access_key_id = AK1".data,
     "aws_secret_access_key = SK1".data, "".data, "[other]".data, "x = y".data]
    ["# note".data, "[alice]".data]
    ["aws_access_key_id = AK1".data, "aws_secret_access_key = SK1".data,
     "".data, "[other]".data, "x = y".data]
    (by decide) ?_
  · obtain ⟨span', h1, h2⟩ := h
    refine ⟨span', ?_, h2⟩
    have htake : (["aws_access_key_id = AK1".data,
        "aws_secret_access_key = SK1".data, "".data, "[other]".data,
        "x = y".data] : List Str).takeWhile (fun l => !isHeaderLine l) =
        ["aws_access_key_id = AK1".data, "aws_secret_access_key = SK1".data,
         "".data] := by decide
    rw [← htake]
    exact h1
  · intro kv hkv
    rcases List.mem_cons.mp hkv with heq | hkv'
    · subst heq
      exact ⟨"aws_access_key_id = AK1".data, by decide, by decide⟩
    · rcases List.mem_cons.mp hkv' with heq | hkv''
      · subst heq
        exact ⟨"aws_secret_access_key = SK1".data, by decide, by decide⟩
      · exact absurd hkv'' (by simp)
